import Mathlib

/-!
Shallow embedding of `src/app.py`, a Flask + SQLite record-keeping app for
inbound-shipment ("hainyu") records.  The SQLite database is modelled as an
explicit state (`DB`): the `hainyu_headers` table as a list of `HeaderRow`
(insertion order = rowid order) and the `hainyu_items` table as a list of
`ItemRow` together with the next AUTOINCREMENT value.  Each HTTP handler of
the source becomes a pure function on `DB`.  Nullable SQL columns are
`Option`, SQLite `REAL` is modelled as `Rat`, `INTEGER` as `Int`.
-/

namespace EK

/-- A row of table `hainyu_headers` (`hainyu_id TEXT PRIMARY KEY`, all other
columns nullable `TEXT`, including the `mark_image` column added by
`init_db`). -/
structure HeaderRow where
  hainyu_id : String
  date : Option String
  shipper : Option String
  dest : Option String
  item_name : Option String
  mark : Option String
  mark_image : Option String
deriving DecidableEq

/-- A row of table `hainyu_items` (`id INTEGER PRIMARY KEY AUTOINCREMENT`,
`hainyu_id TEXT`, nullable typed columns). -/
structure ItemRow where
  id : Nat
  hainyu_id : String
  package_type : Option String
  no_from : Option Int
  no_to : Option Int
  qty : Option Int
  L : Option Rat
  W : Option Rat
  H : Option Rat
  weight_kg : Option Rat
  m3 : Option Rat
deriving DecidableEq

/-- The SQLite database state: both tables plus the next AUTOINCREMENT id of
`hainyu_items`.  Header rows are kept in rowid (insertion) order. -/
structure DB where
  headers : List HeaderRow
  items : List ItemRow
  nextItemId : Nat
deriving DecidableEq

/-- One entry of the posted `items` JSON array.  `none` models a key that is
absent or explicitly `null` (`it.get(k)` yields Python `None` in both cases). -/
structure ItemInput where
  packageType : Option String
  noFrom : Option Int
  noTo : Option Int
  qty : Option Int
  L : Option Rat
  W : Option Rat
  H : Option Rat
  weightKg : Option Rat
  m3 : Option Rat
deriving DecidableEq

/-- The posted `header` JSON object.  For each key the outer `none` models an
absent key and `some none` an explicit JSON `null`, so that both
`header.get(k)` (used for `date`) and `header.get(k, "")` (used for the other
fields) can be rendered faithfully. -/
structure HeaderInput where
  date : Option (Option String)
  shipper : Option (Option String)
  dest : Option (Option String)
  itemName : Option (Option String)
  mark : Option (Option String)
deriving DecidableEq

/-- The `header` object obtained from `data.get("header") or {}` when the key
is absent, `null`, or `{}`. -/
def emptyHeaderInput : HeaderInput := ⟨none, none, none, none, none⟩

/-- A parsed JSON body of `POST /api/hainyu/{id}`.  `header = none` models an
absent/`null`/falsy `header` key (replaced by `{}` via `or {}`), and
`items = none` an absent/`null`/falsy `items` key (replaced by `[]` via
`or []`). -/
structure SaveBody where
  header : Option HeaderInput
  items : Option (List ItemInput)
deriving DecidableEq

/-- All item rows of a given shipment id (`WHERE hainyu_id = ?` on
`hainyu_items`). -/
def itemsFor (db : DB) (id : String) : List ItemRow :=
  db.items.filter (fun i => i.hainyu_id == id)

/-- The `mark_image` column of the header row for `id`, `none` when the row is
absent or the column NULL. -/
def markImageOf (db : DB) (id : String) : Option String :=
  (db.headers.find? (fun r => r.hainyu_id == id)).bind HeaderRow.mark_image

/-- The header upsert of `api_save_hainyu`:
`INSERT INTO hainyu_headers (hainyu_id, date, shipper, dest, item_name, mark)
VALUES (...) ON CONFLICT(hainyu_id) DO UPDATE SET ...` — on a fresh id a new
row is appended with `mark_image` NULL, on an existing id the five mutable
columns are overwritten and `mark_image` is left untouched. -/
def upsertHeaderSave (db : DB) (id : String) (h : HeaderInput) : DB :=
  if db.headers.any (fun r => r.hainyu_id == id) then
    { db with headers := db.headers.map (fun r =>
        if r.hainyu_id == id then
          { r with date := h.date.join, shipper := h.shipper.getD (some ""),
                   dest := h.dest.getD (some ""),
                   item_name := h.itemName.getD (some ""),
                   mark := h.mark.getD (some "") }
        else r) }
  else
    { db with headers := db.headers ++
        [{ hainyu_id := id, date := h.date.join,
           shipper := h.shipper.getD (some ""), dest := h.dest.getD (some ""),
           item_name := h.itemName.getD (some ""),
           mark := h.mark.getD (some ""), mark_image := none }] }

/-- `DELETE FROM hainyu_items WHERE hainyu_id = ?`. -/
def deleteItemsFor (db : DB) (id : String) : DB :=
  { db with items := db.items.filter (fun i => !(i.hainyu_id == id)) }

/-- The row inserted for one posted item. -/
def mkItemRow (n : Nat) (id : String) (it : ItemInput) : ItemRow :=
  { id := n, hainyu_id := id, package_type := it.packageType,
    no_from := it.noFrom, no_to := it.noTo, qty := it.qty,
    L := it.L, W := it.W, H := it.H, weight_kg := it.weightKg, m3 := it.m3 }

/-- One `INSERT INTO hainyu_items (...)` with the next AUTOINCREMENT id. -/
def insertItemRow (db : DB) (id : String) (it : ItemInput) : DB :=
  { db with items := db.items ++ [mkItemRow db.nextItemId id it],
            nextItemId := db.nextItemId + 1 }

/-- The `for it in items:` insertion loop of `api_save_hainyu`. -/
def insertLoop (db : DB) (id : String) : List ItemInput → DB
  | [] => db
  | it :: rest => insertLoop (insertItemRow db id it) id rest

/-- The rows produced by inserting `its` starting at AUTOINCREMENT value `n`. -/
def mkItemRows (n : Nat) (id : String) : List ItemInput → List ItemRow
  | [] => []
  | it :: rest => mkItemRow n id it :: mkItemRows (n + 1) id rest

/-- Handler `api_save_hainyu` (`POST /api/hainyu/{id}`): read the JSON body,
upsert the header (not touching `mark_image`), delete all item rows of the id,
reinsert the posted items in order, commit. -/
def api_save_hainyu (db : DB) (id : String) (body : SaveBody) : DB :=
  insertLoop
    (deleteItemsFor (upsertHeaderSave db id (body.header.getD emptyHeaderInput)) id)
    id (body.items.getD [])

/-- The ordering used by `ORDER BY id` on `hainyu_items`. -/
def itemIdLe (a b : ItemRow) : Prop := a.id ≤ b.id

instance : DecidableRel itemIdLe := fun a b =>
  inferInstanceAs (Decidable (a.id ≤ b.id))

/-- The `header` JSON object returned by `api_get_hainyu`. -/
structure HeaderOut where
  hainyu_id : String
  date : Option String
  shipper : Option String
  dest : Option String
  itemName : Option String
  mark : Option String
  markImage : Option String
deriving DecidableEq

/-- One entry of the `items` JSON array returned by `api_get_hainyu`. -/
structure ItemOut where
  id : Nat
  packageType : Option String
  noFrom : Option Int
  noTo : Option Int
  qty : Option Int
  L : Option Rat
  W : Option Rat
  H : Option Rat
  weightKg : Option Rat
  m3 : Option Rat
deriving DecidableEq

/-- Serialization of a header row into the response JSON. -/
def headerOutOf (r : HeaderRow) : HeaderOut :=
  ⟨r.hainyu_id, r.date, r.shipper, r.dest, r.item_name, r.mark, r.mark_image⟩

/-- Serialization of an item row into the response JSON. -/
def itemOutOf (r : ItemRow) : ItemOut :=
  ⟨r.id, r.package_type, r.no_from, r.no_to, r.qty, r.L, r.W, r.H,
   r.weight_kg, r.m3⟩

/-- Handler `api_get_hainyu` (`GET /api/hainyu/{id}`): `none` models the 404
`{"error": "not found"}` response; otherwise the header row plus the item rows
of the id, `ORDER BY id`. -/
def api_get_hainyu (db : DB) (id : String) : Option (HeaderOut × List ItemOut) :=
  match db.headers.find? (fun r => r.hainyu_id == id) with
  | none => none
  | some r =>
      some (headerOutOf r,
        (List.insertionSort itemIdLe (itemsFor db id)).map itemOutOf)

/-- The nine non-key fields of a returned item, i.e. exactly the shape of a
submitted item.  Round-trip statements compare `itemFieldsOut` of the read
items with the posted items. -/
def itemFieldsOut (o : ItemOut) : ItemInput :=
  ⟨o.packageType, o.noFrom, o.noTo, o.qty, o.L, o.W, o.H, o.weightKg, o.m3⟩

/-- Well-formedness of a database state reachable through SQLite: header ids
are unique (PRIMARY KEY), item ids are strictly increasing in rowid order and
below the next AUTOINCREMENT value. -/
def DB.WF (db : DB) : Prop :=
  db.headers.Pairwise (fun a b => a.hainyu_id ≠ b.hainyu_id) ∧
  (∀ i ∈ db.items, i.id < db.nextItemId) ∧
  db.items.Pairwise (fun a b => a.id < b.id)

/-! ### Helper lemmas: the effect of one save on the stored state -/

theorem find?_map_of_pred {α : Type} (f : α → α) (p : α → Bool)
    (hp : ∀ r, p (f r) = p r) :
    ∀ l : List α, (l.map f).find? p = (l.find? p).map f
  | [] => rfl
  | a :: l => by
    by_cases h : p a = true
    · rw [List.map_cons, List.find?_cons_of_pos _ (by rw [hp]; exact h),
        List.find?_cons_of_pos _ h]
      rfl
    · rw [List.map_cons, List.find?_cons_of_neg _ (by rw [hp]; exact h),
        List.find?_cons_of_neg _ h]
      exact find?_map_of_pred f p hp l

/-- After the save-upsert the header row for `id` carries the submitted
mutable columns while `mark_image` keeps its prior value (`none` when the row
is new). -/
theorem find?_upsertHeaderSave (db : DB) (id : String) (h : HeaderInput) :
    (upsertHeaderSave db id h).headers.find? (fun r => r.hainyu_id == id) =
      some { hainyu_id := id, date := h.date.join,
             shipper := h.shipper.getD (some ""),
             dest := h.dest.getD (some ""),
             item_name := h.itemName.getD (some ""),
             mark := h.mark.getD (some ""),
             mark_image := markImageOf db id } := by
  by_cases hex : db.headers.any (fun r => r.hainyu_id == id) = true
  · obtain ⟨r₀, hr₀⟩ := Option.isSome_iff_exists.mp
      (List.find?_isSome.mpr (List.any_eq_true.mp hex))
    have hpr := List.find?_some hr₀
    have hid : r₀.hainyu_id = id := by simpa using hpr
    rw [upsertHeaderSave, if_pos hex]
    rw [find?_map_of_pred _ _
      (fun r => by by_cases hr : (r.hainyu_id == id) = true <;> simp [hr])]
    rw [hr₀]
    simp [markImageOf, hr₀, hpr, hid]
  · have hall : ∀ r ∈ db.headers, ¬ (r.hainyu_id == id) = true := by
      intro r hr hcontra
      exact hex (List.any_eq_true.mpr ⟨r, hr, hcontra⟩)
    have hnone : db.headers.find? (fun r => r.hainyu_id == id) = none :=
      List.find?_eq_none.mpr hall
    rw [upsertHeaderSave, if_neg hex, markImageOf, hnone]
    rw [List.find?_append, hnone]
    simp

theorem upsertHeaderSave_items (db : DB) (id : String) (h : HeaderInput) :
    (upsertHeaderSave db id h).items = db.items := by
  rw [upsertHeaderSave]; split <;> rfl

theorem upsertHeaderSave_nextItemId (db : DB) (id : String) (h : HeaderInput) :
    (upsertHeaderSave db id h).nextItemId = db.nextItemId := by
  rw [upsertHeaderSave]; split <;> rfl

theorem insertLoop_spec (id : String) :
    ∀ (its : List ItemInput) (db : DB),
      insertLoop db id its =
        ⟨db.headers, db.items ++ mkItemRows db.nextItemId id its,
         db.nextItemId + its.length⟩
  | [], db => by simp [insertLoop, mkItemRows]
  | it :: rest, db => by
    rw [insertLoop, insertLoop_spec id rest]
    simp only [insertItemRow, mkItemRows, List.append_assoc,
      List.singleton_append, List.length_cons, DB.mk.injEq]
    exact ⟨trivial, trivial, by omega⟩

theorem mkItemRows_hainyu (id : String) :
    ∀ (its : List ItemInput) (n : Nat), ∀ r ∈ mkItemRows n id its,
      r.hainyu_id = id
  | [], _ => by simp [mkItemRows]
  | it :: rest, n => by
    simp only [mkItemRows, List.mem_cons, forall_eq_or_imp]
    exact ⟨rfl, mkItemRows_hainyu id rest (n + 1)⟩

theorem mkItemRows_id_ge (id : String) :
    ∀ (its : List ItemInput) (n : Nat), ∀ r ∈ mkItemRows n id its, n ≤ r.id
  | [], _ => by simp [mkItemRows]
  | it :: rest, n => by
    simp only [mkItemRows, List.mem_cons, forall_eq_or_imp]
    refine ⟨Nat.le_refl n, fun r hr => ?_⟩
    exact Nat.le_of_succ_le (mkItemRows_id_ge id rest (n + 1) r hr)

theorem mkItemRows_id_lt (id : String) :
    ∀ (its : List ItemInput) (n : Nat), ∀ r ∈ mkItemRows n id its,
      r.id < n + its.length
  | [], _ => by simp [mkItemRows]
  | it :: rest, n => by
    simp only [mkItemRows, List.mem_cons, forall_eq_or_imp, List.length_cons]
    refine ⟨by simp [mkItemRow], fun r hr => ?_⟩
    have := mkItemRows_id_lt id rest (n + 1) r hr
    omega

theorem mkItemRows_pairwise (id : String) :
    ∀ (its : List ItemInput) (n : Nat),
      (mkItemRows n id its).Pairwise (fun a b => a.id < b.id)
  | [], _ => List.Pairwise.nil
  | it :: rest, n => by
    rw [mkItemRows, List.pairwise_cons]
    refine ⟨fun r hr => ?_, mkItemRows_pairwise id rest (n + 1)⟩
    have := mkItemRows_id_ge id rest (n + 1) r hr
    simp only [mkItemRow]
    omega

theorem mkItemRows_sorted (id : String) (its : List ItemInput) (n : Nat) :
    List.Sorted itemIdLe (mkItemRows n id its) :=
  (mkItemRows_pairwise id its n).imp fun h => Nat.le_of_lt h

/-- After one save, the stored item rows of `id` are exactly the rows built
from the submitted list, in submitted order, with consecutive fresh ids. -/
theorem itemsFor_save (db : DB) (id : String) (body : SaveBody) :
    itemsFor (api_save_hainyu db id body) id =
      mkItemRows db.nextItemId id (body.items.getD []) := by
  rw [api_save_hainyu, insertLoop_spec, itemsFor]
  simp only [deleteItemsFor, upsertHeaderSave_items, upsertHeaderSave_nextItemId]
  rw [List.filter_append]
  have h1 : (db.items.filter (fun i => !(i.hainyu_id == id))).filter
      (fun i => i.hainyu_id == id) = [] := by
    rw [List.filter_filter]
    refine List.filter_eq_nil_iff.mpr fun a _ => ?_
    by_cases h : (a.hainyu_id == id) = true <;> simp [h]
  have h2 : (mkItemRows db.nextItemId id (body.items.getD [])).filter
      (fun i => i.hainyu_id == id) =
        mkItemRows db.nextItemId id (body.items.getD []) :=
    List.filter_eq_self.mpr fun r hr => by
      simp [mkItemRows_hainyu id _ _ r hr]
  rw [h1, h2, List.nil_append]

theorem mkItemRows_fields (id : String) :
    ∀ (its : List ItemInput) (n : Nat),
      ((mkItemRows n id its).map itemOutOf).map itemFieldsOut = its
  | [], _ => rfl
  | it :: rest, n => by
    simp only [mkItemRows, List.map_cons, List.cons.injEq]
    exact ⟨rfl, mkItemRows_fields id rest (n + 1)⟩

/-- Reading an id immediately after saving it returns the submitted header
values (with `mark_image` carried over from the prior state) and the rows
built from the submitted items, in submitted order. -/
theorem get_after_save (db : DB) (id : String) (body : SaveBody) :
    api_get_hainyu (api_save_hainyu db id body) id =
      some
        (⟨id, (body.header.getD emptyHeaderInput).date.join,
          (body.header.getD emptyHeaderInput).shipper.getD (some ""),
          (body.header.getD emptyHeaderInput).dest.getD (some ""),
          (body.header.getD emptyHeaderInput).itemName.getD (some ""),
          (body.header.getD emptyHeaderInput).mark.getD (some ""),
          markImageOf db id⟩,
         (mkItemRows db.nextItemId id (body.items.getD [])).map itemOutOf) := by
  have hH : (api_save_hainyu db id body).headers.find?
      (fun r => r.hainyu_id == id) =
      some { hainyu_id := id,
             date := (body.header.getD emptyHeaderInput).date.join,
             shipper := (body.header.getD emptyHeaderInput).shipper.getD (some ""),
             dest := (body.header.getD emptyHeaderInput).dest.getD (some ""),
             item_name := (body.header.getD emptyHeaderInput).itemName.getD (some ""),
             mark := (body.header.getD emptyHeaderInput).mark.getD (some ""),
             mark_image := markImageOf db id } := by
    rw [api_save_hainyu, insertLoop_spec]
    exact find?_upsertHeaderSave db id _
  rw [api_get_hainyu, hH, itemsFor_save,
    (mkItemRows_sorted id _ _).insertionSort_eq]
  rfl

theorem upsertHeaderSave_pairwise (db : DB) (id : String) (h : HeaderInput)
    (hH : db.headers.Pairwise (fun a b => a.hainyu_id ≠ b.hainyu_id)) :
    (upsertHeaderSave db id h).headers.Pairwise
      (fun a b => a.hainyu_id ≠ b.hainyu_id) := by
  rw [upsertHeaderSave]
  by_cases hex : db.headers.any (fun r => r.hainyu_id == id) = true
  · rw [if_pos hex]
    rw [List.pairwise_map]
    refine hH.imp fun {a b} hab => ?_
    dsimp only
    split <;> split <;> simpa using hab
  · rw [if_neg hex]
    rw [List.pairwise_append]
    refine ⟨hH, List.pairwise_singleton _ _, ?_⟩
    intro a ha b hb
    simp only [List.mem_singleton] at hb
    subst hb
    intro hcontra
    exact hex (List.any_eq_true.mpr ⟨a, ha, by simp [hcontra]⟩)

/-- A save keeps the database well-formed. -/
theorem WF_save (db : DB) (id : String) (body : SaveBody) (hwf : db.WF) :
    (api_save_hainyu db id body).WF := by
  obtain ⟨hH, hBound, hSorted⟩ := hwf
  rw [api_save_hainyu, insertLoop_spec]
  simp only [DB.WF, deleteItemsFor, upsertHeaderSave_items,
    upsertHeaderSave_nextItemId]
  refine ⟨upsertHeaderSave_pairwise db id _ hH, ?_, ?_⟩
  · intro i hi
    rcases List.mem_append.mp hi with hcase | hcase
    · have := hBound i (List.mem_of_mem_filter hcase)
      omega
    · have := mkItemRows_id_lt id _ db.nextItemId i hcase
      omega
  · rw [List.pairwise_append]
    refine ⟨hSorted.sublist (List.filter_sublist _),
      mkItemRows_pairwise id _ _, ?_⟩
    intro a ha b hb
    have h1 := hBound a (List.mem_of_mem_filter ha)
    have h2 := mkItemRows_id_ge id _ db.nextItemId b hb
    omega

/-! ### Claims about the record store -/

/-- C1: after `Write(id, header, items)` (`POST /api/hainyu/{id}`) with a
valid payload supplying the five header fields and an item list, `Read(id)`
(`GET /api/hainyu/{id}`) succeeds and returns header fields equal to the
submitted values and the item list in exactly the submitted order. -/
theorem C1_write_read_roundtrip (db : DB) (id : String) (h : HeaderInput)
    (its : List ItemInput) (d sh de itn mk : String)
    (hd : h.date = some (some d)) (hs : h.shipper = some (some sh))
    (hde : h.dest = some (some de)) (hit : h.itemName = some (some itn))
    (hm : h.mark = some (some mk)) :
    ∃ hdr items,
      api_get_hainyu (api_save_hainyu db id ⟨some h, some its⟩) id =
        some (hdr, items) ∧
      hdr.hainyu_id = id ∧ hdr.date = some d ∧ hdr.shipper = some sh ∧
      hdr.dest = some de ∧ hdr.itemName = some itn ∧ hdr.mark = some mk ∧
      items.map itemFieldsOut = its := by
  refine ⟨_, _, get_after_save db id ⟨some h, some its⟩, ?_⟩
  simp only [Option.getD_some, hd, hs, hde, hit, hm]
  exact ⟨trivial, rfl, trivial, trivial, trivial, trivial,
    mkItemRows_fields id its db.nextItemId⟩

theorem C1_write_read_roundtrip_witness :
    ∃ hdr items,
      api_get_hainyu
        (api_save_hainyu ⟨[], [], 0⟩ "X123"
          ⟨some ⟨some (some "2024-01-01"), some (some "ACME"),
             some (some "Tokyo"), some (some "Boxes"), some (some "M1")⟩,
           some [⟨some "CTN", none, none, some 10, some 1, some 1, some 1,
             some 5, some 1⟩]⟩) "X123" = some (hdr, items) ∧
      hdr.hainyu_id = "X123" ∧ hdr.date = some "2024-01-01" ∧
      hdr.shipper = some "ACME" ∧ hdr.dest = some "Tokyo" ∧
      hdr.itemName = some "Boxes" ∧ hdr.mark = some "M1" ∧
      items.map itemFieldsOut =
        [⟨some "CTN", none, none, some 10, some 1, some 1, some 1,
          some 5, some 1⟩] :=
  C1_write_read_roundtrip ⟨[], [], 0⟩ "X123" _ _ _ _ _ _ _
    rfl rfl rfl rfl rfl

/-- C2: a save is a full replace of the item list: writing items `[A, B]` and
then `[C]` for the same id leaves exactly the single item `C`; the prior
items are discarded, never merged. -/
theorem C2_save_replaces_items (db : DB) (id : String)
    (b1 b2 : Option HeaderInput) (A B C : ItemInput) :
    ∃ hdr items,
      api_get_hainyu
        (api_save_hainyu (api_save_hainyu db id ⟨b1, some [A, B]⟩) id
          ⟨b2, some [C]⟩) id = some (hdr, items) ∧
      items.map itemFieldsOut = [C] := by
  refine ⟨_, _, get_after_save _ id ⟨b2, some [C]⟩, ?_⟩
  exact mkItemRows_fields id [C] _

/-! ### Transactional model of the save (claim C3)

All statements of `api_save_hainyu` run on one freshly opened SQLite
connection and `conn.commit()` is called only once, after the insertion loop.
When an INSERT raises, the handler escapes before the commit and the implicit
transaction holding the header upsert, the DELETE and the earlier INSERTs is
rolled back, so the published state stays the pre-request one.  The model
makes this boundary explicit: the working state is published only by the
final commit. -/

/-- The insertion loop on the uncommitted working state; `ok it = false`
models the INSERT for `it` raising a storage error, which aborts the whole
transaction. -/
def insertLoopTx (db : DB) (id : String) (ok : ItemInput → Bool) :
    List ItemInput → Option DB
  | [] => some db
  | it :: rest =>
    if ok it then insertLoopTx (insertItemRow db id it) id ok rest else none

/-- `api_save_hainyu` with the transaction boundary explicit: the result is
the working state when every statement succeeded (the commit), and the
untouched prior state when some INSERT failed (the rollback). -/
def api_save_hainyu_tx (db : DB) (id : String) (body : SaveBody)
    (ok : ItemInput → Bool) : DB :=
  match insertLoopTx
      (deleteItemsFor
        (upsertHeaderSave db id (body.header.getD emptyHeaderInput)) id)
      id ok (body.items.getD []) with
  | some w => w
  | none => db

theorem insertLoopTx_all_ok (id : String) (ok : ItemInput → Bool) :
    ∀ (its : List ItemInput) (db : DB), (∀ it ∈ its, ok it = true) →
      insertLoopTx db id ok its = some (insertLoop db id its)
  | [], _, _ => rfl
  | it :: rest, db, hall => by
    rw [insertLoopTx, if_pos (hall it (List.mem_cons_self it rest)), insertLoop]
    exact insertLoopTx_all_ok id ok rest _
      fun x hx => hall x (List.mem_cons_of_mem _ hx)

theorem insertLoopTx_some (id : String) (ok : ItemInput → Bool) :
    ∀ (its : List ItemInput) (db w : DB),
      insertLoopTx db id ok its = some w → w = insertLoop db id its
  | [], db, w, hw => by
    rw [insertLoopTx] at hw
    rw [insertLoop]
    exact (Option.some_inj.mp hw).symm
  | it :: rest, db, w, hw => by
    rw [insertLoopTx] at hw
    by_cases h : ok it = true
    · rw [if_pos h] at hw
      rw [insertLoop]
      exact insertLoopTx_some id ok rest _ w hw
    · rw [if_neg h] at hw
      exact absurd hw (by simp)

/-- C3: the DELETE of the old item rows and the N INSERTs of the new ones
commit together or not at all: when every INSERT succeeds the transactional
run equals the plain save, when some INSERT fails the stored state — in
particular the item set of the id — is left exactly as before the request. -/
theorem C3_save_atomic (db : DB) (id : String) (body : SaveBody)
    (ok : ItemInput → Bool) :
    ((∀ it ∈ body.items.getD [], ok it = true) →
      api_save_hainyu_tx db id body ok = api_save_hainyu db id body) ∧
    (insertLoopTx
        (deleteItemsFor
          (upsertHeaderSave db id (body.header.getD emptyHeaderInput)) id)
        id ok (body.items.getD []) = none →
      api_save_hainyu_tx db id body ok = db ∧
      itemsFor (api_save_hainyu_tx db id body ok) id = itemsFor db id) ∧
    (api_save_hainyu_tx db id body ok = db ∨
      api_save_hainyu_tx db id body ok = api_save_hainyu db id body) := by
  refine ⟨fun hall => ?_, fun hfail => ?_, ?_⟩
  · rw [api_save_hainyu_tx, insertLoopTx_all_ok id ok _ _ hall]
    rfl
  · have hdb : api_save_hainyu_tx db id body ok = db := by
      rw [api_save_hainyu_tx, hfail]
    exact ⟨hdb, by rw [hdb]⟩
  · cases hres : insertLoopTx
        (deleteItemsFor
          (upsertHeaderSave db id (body.header.getD emptyHeaderInput)) id)
        id ok (body.items.getD []) with
    | none =>
      left
      rw [api_save_hainyu_tx, hres]
    | some w =>
      right
      rw [api_save_hainyu_tx, hres, api_save_hainyu]
      exact insertLoopTx_some id ok _ _ w hres

theorem C3_save_atomic_witness :
    api_save_hainyu_tx
        ⟨[], [mkItemRow 0 "X"
          ⟨some "OLD", none, none, some 1, none, none, none, none, none⟩], 1⟩
        "X"
        ⟨none, some [⟨some "NEW", none, none, some 2, none, none, none, none,
          none⟩]⟩
        (fun _ => false) =
      ⟨[], [mkItemRow 0 "X"
        ⟨some "OLD", none, none, some 1, none, none, none, none, none⟩], 1⟩ :=
  ((C3_save_atomic
      ⟨[], [mkItemRow 0 "X"
        ⟨some "OLD", none, none, some 1, none, none, none, none, none⟩], 1⟩
      "X"
      ⟨none, some [⟨some "NEW", none, none, some 2, none, none, none, none,
        none⟩]⟩
      (fun _ => false)).2.1 rfl).1

/-! ### The HTTP surface of the save route (claims C8, C10) -/

/-- The route for `POST /api/hainyu/{id}`:
`request.get_json(force=True)` raises `BadRequest`, answered as HTTP 400,
when the request body is missing, empty, or not parseable JSON (modelled as
`body = none`); otherwise the handler runs and answers HTTP 200 with
`{"status": "ok"}`. -/
def api_save_hainyu_route (db : DB) (id : String) (body : Option SaveBody) :
    Nat × DB :=
  match body with
  | none => (400, db)
  | some b => (200, api_save_hainyu db id b)

/-- C8: `POST /api/hainyu/{id}` answers HTTP 400 when the request body is
missing or empty, for every identifier, leaving the stored state untouched. -/
theorem C8_missing_body_400 (db : DB) (id : String) :
    (api_save_hainyu_route db id none).1 = 400 ∧
    (api_save_hainyu_route db id none).2 = db :=
  ⟨rfl, rfl⟩

/-- C10: a `POST /api/hainyu/{id}` whose body omits `items` (or sends it as
`null` or `[]`) succeeds with status ok and deletes every stored item row of
the id; header fields absent from the body are overwritten with their
defaults (`''` for shipper, dest, itemName, mark; NULL for date), so posting
`{}` blanks the header text fields and clears all items (`mark_image` alone
is preserved). -/
theorem C10_empty_body_defaults (db : DB) (id : String)
    (h : Option HeaderInput) :
    ((api_save_hainyu_route db id (some ⟨h, none⟩)).1 = 200 ∧
      itemsFor (api_save_hainyu db id ⟨h, none⟩) id = [] ∧
      itemsFor (api_save_hainyu db id ⟨h, some []⟩) id = []) ∧
    (api_save_hainyu db id ⟨none, none⟩).headers.find?
        (fun r => r.hainyu_id == id) =
      some ⟨id, none, some "", some "", some "", some "", markImageOf db id⟩ := by
  refine ⟨⟨rfl, ?_, ?_⟩, ?_⟩
  · rw [itemsFor_save]
    rfl
  · rw [itemsFor_save]
    rfl
  · rw [api_save_hainyu, insertLoop_spec]
    exact find?_upsertHeaderSave db id _

/-! ### Image attachment (`api_upload_mark_image`, claims C7, C9) -/

/-- Index of the last occurrence of `c` in `l` (Python `str.rfind`), `none`
when absent. -/
def rfindIdx (c : Char) : List Char → Option Nat
  | [] => none
  | a :: rest =>
    match rfindIdx c rest with
    | some i => some (i + 1)
    | none => if a = c then some 0 else none

/-- The extension part returned by `os.path.splitext` (POSIX rules): the
slice from the last dot on, provided that dot lies after the last path
separator and some non-dot character of the basename precedes it — leading
dots of a basename never start an extension. -/
def splitextExt (p : String) : String :=
  match rfindIdx '.' p.data with
  | none => ""
  | some d =>
    let s := match rfindIdx '/' p.data with
             | none => 0
             | some si => si + 1
    if ((p.data.take d).drop s).any (fun c => !(c == '.')) then
      ⟨p.data.drop d⟩
    else ""

/-- ASCII lower-casing of one character.  SQLite's default `LIKE` folds
exactly `A`–`Z`; Python's `str.lower()` agrees with it on ASCII, which is all
that can influence the allowed-extension test below. -/
def lowerChar (c : Char) : Char :=
  if 'A' ≤ c ∧ c ≤ 'Z' then Char.ofNat (c.toNat + 32) else c

def lowerStr (s : String) : String := ⟨s.data.map lowerChar⟩

/-- The extension allow-list of `api_upload_mark_image`. -/
def allowedExts : List String := [".jpg", ".jpeg", ".png", ".gif", ".webp", ".bmp"]

/-- The extension chosen by `api_upload_mark_image`:
`_, ext = os.path.splitext(f.filename); ext = ext.lower() or ".jpg";
if ext not in [...]: ext = ".jpg"`. -/
def chooseExt (name : String) : String :=
  let e := if lowerStr (splitextExt name) = "" then ".jpg"
           else lowerStr (splitextExt name)
  if e ∈ allowedExts then e else ".jpg"

/-- The relative path stored for an uploaded mark image:
`os.path.join("mark_images", f"{hainyu_id}_{int(time.time())}{ext}")` with
separators normalised to `/`. -/
def markImagePath (id : String) (ts : Nat) (name : String) : String :=
  "mark_images/" ++ (id ++ "_" ++ toString ts ++ chooseExt name)

/-- The multipart request of `POST /api/hainyu/{id}/mark_image`: whether a
`file` part is present, and its original filename. -/
structure UploadInput where
  filePresent : Bool
  filename : String

/-- The mark-image upsert:
`INSERT INTO hainyu_headers (hainyu_id, date, shipper, dest, item_name, mark,
mark_image) VALUES (?, '', '', '', '', '', ?) ON CONFLICT(hainyu_id) DO
UPDATE SET mark_image = excluded.mark_image` — a fresh id gets a header with
blank (empty-string) text columns and the image path; an existing header
changes in the `mark_image` column alone. -/
def upsertMarkImage (db : DB) (id rel : String) : DB :=
  if db.headers.any (fun r => r.hainyu_id == id) then
    { db with headers := db.headers.map (fun r =>
        if r.hainyu_id == id then { r with mark_image := some rel } else r) }
  else
    { db with headers := db.headers ++
        [⟨id, some "", some "", some "", some "", some "", some rel⟩] }

/-- Handler `api_upload_mark_image` (`POST /api/hainyu/{id}/mark_image`).
`ts` is `int(time.time())`.  `Except.error 400` models the two `BadRequest`
responses (no `file` part, empty filename); on success the new state and the
stored relative path are returned (writing the bytes to disk is outside the
database model). -/
def api_upload_mark_image (db : DB) (id : String) (ts : Nat)
    (inp : UploadInput) : Except Nat (DB × String) :=
  if !inp.filePresent then .error 400
  else if inp.filename = "" then .error 400
  else
    .ok (upsertMarkImage db id (markImagePath id ts inp.filename),
         markImagePath id ts inp.filename)

theorem find?_upsertMarkImage_new (db : DB) (id rel : String)
    (hnone : db.headers.find? (fun r => r.hainyu_id == id) = none) :
    (upsertMarkImage db id rel).headers.find? (fun r => r.hainyu_id == id) =
      some ⟨id, some "", some "", some "", some "", some "", some rel⟩ := by
  have hex : ¬ db.headers.any (fun r => r.hainyu_id == id) = true := by
    intro hc
    obtain ⟨r, hr, hp⟩ := List.any_eq_true.mp hc
    exact absurd hp (List.find?_eq_none.mp hnone r hr)
  rw [upsertMarkImage, if_neg hex, List.find?_append, hnone]
  simp

theorem find?_upsertMarkImage_old (db : DB) (id rel : String) (r₀ : HeaderRow)
    (hsome : db.headers.find? (fun r => r.hainyu_id == id) = some r₀) :
    (upsertMarkImage db id rel).headers.find? (fun r => r.hainyu_id == id) =
      some { r₀ with mark_image := some rel } := by
  have hpr := List.find?_some hsome
  have hex : db.headers.any (fun r => r.hainyu_id == id) = true :=
    List.any_eq_true.mpr ⟨r₀, List.mem_of_find?_eq_some hsome, hpr⟩
  rw [upsertMarkImage, if_pos hex,
    find?_map_of_pred _ _
      (fun r => by by_cases hr : (r.hainyu_id == id) = true <;> simp [hr]),
    hsome]
  have hid : r₀.hainyu_id = id := by simpa using hpr
  simp [hid]

/-- A save leaves the stored image path of the id unchanged. -/
theorem markImageOf_save (db : DB) (id : String) (body : SaveBody) :
    markImageOf (api_save_hainyu db id body) id = markImageOf db id := by
  rw [markImageOf]
  have hH : (api_save_hainyu db id body).headers.find?
      (fun r => r.hainyu_id == id) =
      some { hainyu_id := id,
             date := (body.header.getD emptyHeaderInput).date.join,
             shipper := (body.header.getD emptyHeaderInput).shipper.getD (some ""),
             dest := (body.header.getD emptyHeaderInput).dest.getD (some ""),
             item_name := (body.header.getD emptyHeaderInput).itemName.getD (some ""),
             mark := (body.header.getD emptyHeaderInput).mark.getD (some ""),
             mark_image := markImageOf db id } := by
    rw [api_save_hainyu, insertLoop_spec]
    exact find?_upsertHeaderSave db id _
  rw [hH]
  rfl

/-- C7: attaching an image to an unknown id creates a header whose text
columns are all blank and whose image path is set; attaching to an existing
header updates the image path column alone; a save never changes the image
path; hence saving header text after an attach does not clear the stored
image path. -/
theorem C7_attach_and_save_frame (db : DB) (id : String) (ts : Nat)
    (name : String) (body : SaveBody) (hname : name ≠ "") :
    (db.headers.find? (fun r => r.hainyu_id == id) = none →
      api_upload_mark_image db id ts ⟨true, name⟩ =
        .ok (upsertMarkImage db id (markImagePath id ts name),
             markImagePath id ts name) ∧
      (upsertMarkImage db id (markImagePath id ts name)).headers.find?
          (fun r => r.hainyu_id == id) =
        some ⟨id, some "", some "", some "", some "", some "",
          some (markImagePath id ts name)⟩) ∧
    (∀ r₀, db.headers.find? (fun r => r.hainyu_id == id) = some r₀ →
      (upsertMarkImage db id (markImagePath id ts name)).headers.find?
          (fun r => r.hainyu_id == id) =
        some { r₀ with mark_image := some (markImagePath id ts name) }) ∧
    markImageOf (api_save_hainyu db id body) id = markImageOf db id ∧
    (db.headers.find? (fun r => r.hainyu_id == id) = none →
      markImageOf
        (api_save_hainyu
          (upsertMarkImage db id (markImagePath id ts name)) id body) id =
        some (markImagePath id ts name)) := by
  refine ⟨fun hnone => ⟨?_, find?_upsertMarkImage_new db id _ hnone⟩,
    fun r₀ hsome => find?_upsertMarkImage_old db id _ r₀ hsome,
    markImageOf_save db id body, fun hnone => ?_⟩
  · simp [api_upload_mark_image, hname]
  · rw [markImageOf_save, markImageOf, find?_upsertMarkImage_new db id _ hnone]
    rfl

theorem C7_attach_and_save_frame_witness :
    markImageOf (api_save_hainyu ⟨[], [], 0⟩ "X1" ⟨none, none⟩) "X1" =
      markImageOf ⟨[], [], 0⟩ "X1" :=
  (C7_attach_and_save_frame ⟨[], [], 0⟩ "X1" 0 "photo.PNG" ⟨none, none⟩
    (by decide)).2.2.1

/-- C9: the stored extension is the lower-cased original extension when that
is in the allowed set `{.jpg, .jpeg, .png, .gif, .webp, .bmp}` and `.jpg`
otherwise (absent extension included); the stored path is exactly
`mark_images/{id}_{unixTimestampSeconds}{ext}`.  In particular
`"photo.PNG"` keeps `.png` and `"photo.txt"` falls back to `.jpg`. -/
theorem C9_extension_and_filename (db : DB) (id : String) (ts : Nat)
    (name : String) (hname : name ≠ "") :
    chooseExt name ∈ allowedExts ∧
    (lowerStr (splitextExt name) ∈ allowedExts →
      chooseExt name = lowerStr (splitextExt name)) ∧
    (lowerStr (splitextExt name) ∉ allowedExts → chooseExt name = ".jpg") ∧
    api_upload_mark_image db id ts ⟨true, name⟩ =
      .ok (upsertMarkImage db id
            ("mark_images/" ++ (id ++ "_" ++ toString ts ++ chooseExt name)),
           "mark_images/" ++ (id ++ "_" ++ toString ts ++ chooseExt name)) ∧
    chooseExt "photo.PNG" = ".png" ∧ chooseExt "photo.txt" = ".jpg" := by
  refine ⟨?_, fun hmem => ?_, fun hnot => ?_, ?_, by decide, by decide⟩
  · by_cases hin : (if lowerStr (splitextExt name) = "" then ".jpg"
        else lowerStr (splitextExt name)) ∈ allowedExts
    · simp [chooseExt, hin]
    · simp [chooseExt, hin]
      decide
  · have hne : ¬ lowerStr (splitextExt name) = "" := by
      intro he
      rw [he] at hmem
      exact absurd hmem (by decide)
    simp [chooseExt, hne, hmem]
  · by_cases he : lowerStr (splitextExt name) = ""
    · have hjpg : ".jpg" ∈ allowedExts := by decide
      simp [chooseExt, he, hjpg]
    · simp [chooseExt, he, hnot]
  · simp [api_upload_mark_image, hname, markImagePath]

theorem C9_extension_and_filename_witness :
    chooseExt "photo.PNG" = ".png" ∧ chooseExt "photo.txt" = ".jpg" :=
  (C9_extension_and_filename ⟨[], [], 0⟩ "X" 0 "photo.PNG"
    (by decide)).2.2.2.2

/-! ### SQLite LIKE and the search service (claims C5, C6)

`api_search` delegates matching to SQLite's default `LIKE` operator, applied
to the pattern `%q%` built from the stripped query without escaping: `%`
matches any (possibly empty) character sequence, `_` exactly one character,
and letters compare ASCII-case-insensitively. -/

/-- All suffixes of a character list, longest first. -/
def suffixes : List Char → List (List Char)
  | [] => [[]]
  | c :: t => (c :: t) :: suffixes t

/-- SQLite's default `LIKE`: `likeMatch pat s` decides `s LIKE pat`. -/
def likeMatch : List Char → List Char → Bool
  | [], s => s.isEmpty
  | p :: ps, s =>
    if p = '%' then (suffixes s).any (fun t => likeMatch ps t)
    else
      match s with
      | [] => false
      | c :: t =>
        (if p = '_' then true else lowerChar p == lowerChar c) &&
          likeMatch ps t

def sqlLike (pat s : String) : Bool := likeMatch pat.data s.data

/-- `column LIKE ?` on a nullable column: NULL never matches. -/
def optLike (o : Option String) (pat : String) : Bool :=
  match o with
  | none => false
  | some s => sqlLike pat s

/-- Python `str.strip()` as applied to the query parameters: drop leading and
trailing whitespace.  (Python also strips a few non-ASCII space characters;
only the ASCII ones can matter for the blank-versus-non-blank test modelled
here.) -/
def isSpaceChar (c : Char) : Bool :=
  c = ' ' || c = '\t' || c = '\n' || c = '\r' || c = '\x0b' || c = '\x0c'

def stripStr (s : String) : String :=
  ⟨((s.data.dropWhile isSpaceChar).reverse.dropWhile isSpaceChar).reverse⟩

/-- The `WHERE` clause of `api_search` for a non-blank query `q`: one of the
five text columns matches `%q%`. -/
def matchesQuery (q : String) (h : HeaderRow) : Bool :=
  sqlLike ("%" ++ q ++ "%") h.hainyu_id ||
  optLike h.shipper ("%" ++ q ++ "%") ||
  optLike h.dest ("%" ++ q ++ "%") ||
  optLike h.item_name ("%" ++ q ++ "%") ||
  optLike h.mark ("%" ++ q ++ "%")

/-- SQLite TEXT comparison: memcmp on the UTF-8 bytes, which coincides with
lexicographic code-point order of the characters. -/
def strLt (a b : String) : Prop := a.data < b.data

def strLe (a b : String) : Prop := a.data ≤ b.data

instance (a b : String) : Decidable (strLt a b) :=
  inferInstanceAs (Decidable (a.data < b.data))

instance (a b : String) : Decidable (strLe a b) :=
  inferInstanceAs (Decidable (a.data ≤ b.data))

/-- SQLite ordering on a nullable TEXT column: NULL sorts before every
string. -/
def dateLt : Option String → Option String → Prop
  | none, none => False
  | none, some _ => True
  | some _, none => False
  | some u, some v => strLt u v

instance : ∀ x y : Option String, Decidable (dateLt x y)
  | none, none => isFalse id
  | none, some _ => isTrue trivial
  | some _, none => isFalse id
  | some u, some v => inferInstanceAs (Decidable (strLt u v))

theorem dateLt_trans : ∀ {x y z : Option String},
    dateLt x y → dateLt y z → dateLt x z
  | none, some _, some _, _, _ => trivial
  | some u, some v, some w, hxy, hyz =>
    lt_trans (hxy : u.data < v.data) (hyz : v.data < w.data)
  | none, none, _, hxy, _ => absurd hxy id
  | some _, none, _, hxy, _ => absurd hxy id
  | none, some _, none, _, hyz => absurd hyz id

theorem dateLt_or_eq : ∀ x y : Option String,
    dateLt x y ∨ dateLt y x ∨ x = y
  | none, none => Or.inr (Or.inr rfl)
  | none, some _ => Or.inl trivial
  | some _, none => Or.inr (Or.inl trivial)
  | some u, some v => by
    rcases lt_trichotomy u.data v.data with h | h | h
    · exact Or.inl h
    · exact Or.inr (Or.inr (by rw [String.ext h]))
    · exact Or.inr (Or.inl h)

/-- The result order of `api_search` and `api_summary`:
`ORDER BY date DESC, hainyu_id ASC` (SQLite puts NULL dates last under
`DESC`). -/
def recencyOrd (a b : HeaderRow) : Prop :=
  dateLt b.date a.date ∨ (a.date = b.date ∧ strLe a.hainyu_id b.hainyu_id)

instance : DecidableRel recencyOrd := fun a b =>
  inferInstanceAs
    (Decidable (dateLt b.date a.date ∨
      (a.date = b.date ∧ strLe a.hainyu_id b.hainyu_id)))

instance : IsTrans HeaderRow recencyOrd where
  trans a b c hab hbc := by
    rcases hab with h1 | ⟨e1, l1⟩
    · rcases hbc with h2 | ⟨e2, l2⟩
      · exact Or.inl (dateLt_trans h2 h1)
      · exact Or.inl (e2 ▸ h1)
    · rcases hbc with h2 | ⟨e2, l2⟩
      · exact Or.inl (e1.symm ▸ h2)
      · exact Or.inr ⟨e1.trans e2,
          le_trans (l1 : a.hainyu_id.data ≤ b.hainyu_id.data) l2⟩

instance : IsTotal HeaderRow recencyOrd where
  total a b := by
    rcases dateLt_or_eq b.date a.date with h | h | h
    · exact Or.inl (Or.inl h)
    · exact Or.inr (Or.inl h)
    · rcases le_total a.hainyu_id.data b.hainyu_id.data with hle | hle
      · exact Or.inl (Or.inr ⟨h.symm, hle⟩)
      · exact Or.inr (Or.inr ⟨h, hle⟩)

/-- One entry of `GET /api/search` results; `lastUpdated` is served from the
`date` column (no real last-updated timestamp exists in the schema). -/
structure SearchRow where
  hainyuId : String
  date : Option String
  shipper : Option String
  dest : Option String
  itemName : Option String
  lastUpdated : Option String
deriving DecidableEq

def mkSearchRow (h : HeaderRow) : SearchRow :=
  ⟨h.hainyu_id, h.date, h.shipper, h.dest, h.item_name, h.date⟩

/-- Handler `api_search` (`GET /api/search?q=`): strip the query; a blank
query selects all headers, otherwise those where one of the five text columns
matches `%q%`; `ORDER BY date DESC, hainyu_id ASC LIMIT 100`. -/
def api_search (db : DB) (q : String) : List SearchRow :=
  ((List.insertionSort recencyOrd
      (if stripStr q = "" then db.headers
       else db.headers.filter (matchesQuery (stripStr q)))).take 100).map
    mkSearchRow

/-- Case-insensitive (ASCII) substring containment: some slice of `hay`
lower-cases to the lower-cased query. -/
def containsCI (q hay : String) : Prop :=
  ∃ u v w, hay.data = u ++ v ++ w ∧ v.map lowerChar = q.data.map lowerChar

theorem mem_suffixes : ∀ (s x : List Char), x ∈ suffixes s ↔ ∃ u, s = u ++ x
  | [], x => by
    simp only [suffixes, List.mem_singleton]
    constructor
    · rintro rfl
      exact ⟨[], rfl⟩
    · rintro ⟨u, hu⟩
      exact (List.append_eq_nil.mp hu.symm).2
  | c :: t, x => by
    simp only [suffixes, List.mem_cons]
    constructor
    · rintro (rfl | hx)
      · exact ⟨[], rfl⟩
      · obtain ⟨u, hu⟩ := (mem_suffixes t x).mp hx
        exact ⟨c :: u, by rw [hu]; rfl⟩
    · rintro ⟨u, hu⟩
      cases u with
      | nil => exact Or.inl (by simpa using hu.symm)
      | cons d u2 =>
        have h2 : t = u2 ++ x := by
          simp only [List.cons_append, List.cons.injEq] at hu
          exact hu.2
        exact Or.inr ((mem_suffixes t x).mpr ⟨u2, h2⟩)

theorem likeMatch_pct (ps s : List Char) :
    likeMatch ('%' :: ps) s = (suffixes s).any (fun t => likeMatch ps t) := by
  simp [likeMatch]

theorem likeMatch_lit_nil (p : Char) (hp1 : p ≠ '%') (ps : List Char) :
    likeMatch (p :: ps) [] = false := by
  simp [likeMatch, hp1]

theorem likeMatch_lit_cons (p : Char) (hp1 : p ≠ '%') (hp2 : p ≠ '_')
    (ps : List Char) (c : Char) (t : List Char) :
    likeMatch (p :: ps) (c :: t) =
      ((lowerChar p == lowerChar c) && likeMatch ps t) := by
  simp [likeMatch, hp1, hp2]

/-- A metacharacter-free literal pattern followed by `%` matches exactly the
strings starting (case-insensitively) with that literal. -/
theorem likeMatch_append_pct (q : List Char)
    (hq : ∀ c ∈ q, c ≠ '%' ∧ c ≠ '_') :
    ∀ t, likeMatch (q ++ ['%']) t = true →
      ∃ v w, t = v ++ w ∧ v.map lowerChar = q.map lowerChar := by
  induction q with
  | nil =>
    intro t _
    exact ⟨[], t, rfl, rfl⟩
  | cons a q ih =>
    intro t h
    have ha := hq a (List.mem_cons_self a q)
    rw [List.cons_append] at h
    cases t with
    | nil => rw [likeMatch_lit_nil a ha.1] at h; exact absurd h (by simp)
    | cons c t2 =>
      rw [likeMatch_lit_cons a ha.1 ha.2] at h
      simp only [Bool.and_eq_true, beq_iff_eq] at h
      obtain ⟨v, w, hvw, hmap⟩ :=
        ih (fun x hx => hq x (List.mem_cons_of_mem a hx)) t2 h.2
      exact ⟨c :: v, w, by rw [hvw]; rfl, by simp [h.1, hmap]⟩

/-- A successful `LIKE '%q%'` match with a metacharacter-free `q` exhibits
`q` as an ASCII-case-insensitive substring. -/
theorem sqlLike_imp_containsCI (q s : String)
    (hq : ∀ c ∈ q.data, c ≠ '%' ∧ c ≠ '_')
    (h : sqlLike ("%" ++ q ++ "%") s = true) : containsCI q s := by
  rw [sqlLike] at h
  have hdata : ("%" ++ q ++ "%").data = '%' :: (q.data ++ ['%']) := by
    simp [String.data_append]
  rw [hdata, likeMatch_pct] at h
  obtain ⟨t, ht, hmatch⟩ := List.any_eq_true.mp h
  obtain ⟨u, hu⟩ := (mem_suffixes s.data t).mp ht
  obtain ⟨v, w, hvw, hmap⟩ := likeMatch_append_pct q.data hq t hmatch
  exact ⟨u, v, w, by rw [hu, hvw, List.append_assoc], hmap⟩

theorem optLike_imp (o : Option String) (q : String)
    (hq : ∀ c ∈ q.data, c ≠ '%' ∧ c ≠ '_')
    (h : optLike o ("%" ++ q ++ "%") = true) :
    ∃ s, o = some s ∧ containsCI q s := by
  cases o with
  | none => simp [optLike] at h
  | some s =>
    exact ⟨s, rfl, sqlLike_imp_containsCI q s hq (by simpa [optLike] using h)⟩

/-- C5: a blank (stripped) query returns the first 100 headers in recency
order (date DESC, id ASC) — the most recent 100 overall; a non-blank query
returns at most 100 rows, each produced from a stored header where the
identifier, shipper, destination, item name or mark matches `%q%` under
SQLite's default LIKE semantics — in particular, when the stripped query
contains no LIKE metacharacter, some such field contains the query as an
ASCII-case-insensitive substring. -/
theorem C5_search_filter_limit (db : DB) (q : String) :
    (stripStr q = "" →
      ∃ l, l.Perm db.headers ∧ List.Sorted recencyOrd l ∧
        api_search db q = (l.take 100).map mkSearchRow) ∧
    (stripStr q ≠ "" →
      (api_search db q).length ≤ 100 ∧
      ∀ row ∈ api_search db q, ∃ h ∈ db.headers,
        mkSearchRow h = row ∧ matchesQuery (stripStr q) h = true ∧
        ((∀ c ∈ (stripStr q).data, c ≠ '%' ∧ c ≠ '_') →
          containsCI (stripStr q) h.hainyu_id ∨
          (∃ s, h.shipper = some s ∧ containsCI (stripStr q) s) ∨
          (∃ s, h.dest = some s ∧ containsCI (stripStr q) s) ∨
          (∃ s, h.item_name = some s ∧ containsCI (stripStr q) s) ∨
          (∃ s, h.mark = some s ∧ containsCI (stripStr q) s))) := by
  constructor
  · intro hb
    refine ⟨List.insertionSort recencyOrd db.headers,
      List.perm_insertionSort recencyOrd db.headers,
      List.sorted_insertionSort recencyOrd db.headers, ?_⟩
    rw [api_search, if_pos hb]
  · intro hnb
    constructor
    · rw [api_search]
      simp only [List.length_map]
      exact List.length_take_le _ _
    · intro row hrow
      rw [api_search, if_neg hnb] at hrow
      obtain ⟨h, hh, hrw⟩ := List.mem_map.mp hrow
      have hh2 := List.mem_of_mem_take hh
      rw [List.mem_insertionSort] at hh2
      obtain ⟨hmem, hmatch⟩ := List.mem_filter.mp hh2
      refine ⟨h, hmem, hrw, hmatch, fun hnometa => ?_⟩
      rw [matchesQuery] at hmatch
      simp only [Bool.or_eq_true] at hmatch
      rcases hmatch with ((((h1 | h2) | h3) | h4) | h5)
      · exact Or.inl (sqlLike_imp_containsCI _ _ hnometa h1)
      · exact Or.inr (Or.inl (optLike_imp _ _ hnometa h2))
      · exact Or.inr (Or.inr (Or.inl (optLike_imp _ _ hnometa h3)))
      · exact Or.inr (Or.inr (Or.inr (Or.inl (optLike_imp _ _ hnometa h4))))
      · exact Or.inr (Or.inr (Or.inr (Or.inr (optLike_imp _ _ hnometa h5))))

theorem C5_search_filter_limit_witness :
    (api_search
      ⟨[⟨"A1", some "2024-01-01", some "ACME", some "Tokyo", some "Boxes",
         some "M1", none⟩], [], 0⟩ "acm").length ≤ 100 :=
  ((C5_search_filter_limit
    ⟨[⟨"A1", some "2024-01-01", some "ACME", some "Tokyo", some "Boxes",
       some "M1", none⟩], [], 0⟩ "acm").2 (by decide)).1

/-- C6 (amended: the tie-break direction of the claim is refuted below):
search results are ordered by the date column — the recency indicator, there
being no last-updated timestamp — descending with NULL dates last, and ties
on the date are broken by identifier ASCENDING. -/
theorem C6_search_order (db : DB) (q : String) :
    (api_search db q).Pairwise (fun r1 r2 =>
      dateLt r2.date r1.date ∨
        (r1.date = r2.date ∧ strLe r1.hainyuId r2.hainyuId)) := by
  rw [api_search, List.pairwise_map]
  refine List.Pairwise.sublist (List.take_sublist _ _) ?_
  refine List.Pairwise.imp ?_ (List.sorted_insertionSort recencyOrd _)
  intro a b hab
  exact hab

/-- Two stored headers sharing a date, with ids "A" and "B". -/
def dbTie : DB :=
  ⟨[⟨"A", some "2024-01-01", some "", some "", some "", some "", none⟩,
    ⟨"B", some "2024-01-01", some "", some "", some "", some "", none⟩],
   [], 0⟩

/-- C6 (counterexample to the claimed tie-break direction): with two stored
headers of equal date and ids "A" < "B", a blank search returns "A" before
"B", so the result is not ordered by identifier descending within equal
recency values. -/
theorem C6_search_order_claim_false :
    ¬ (api_search dbTie "").Pairwise (fun r1 r2 =>
        dateLt r2.date r1.date ∨
          (r1.date = r2.date ∧ strLe r2.hainyuId r1.hainyuId)) := by
  decide

/-! ### The summary service (`api_summary`, claim C4) -/

/-- One folding step of SQL `SUM` over a nullable INTEGER expression: NULL
inputs are skipped, and the running total starts as NULL (the SUM of an empty
set). -/
def sumStepInt (acc : Option Int) (o : Option Int) : Option Int :=
  match o with
  | none => acc
  | some v => some (acc.getD 0 + v)

def sqlSumInt (l : List (Option Int)) : Option Int := l.foldl sumStepInt none

/-- SQL `SUM` over a nullable REAL expression. -/
def sumStepRat (acc : Option Rat) (o : Option Rat) : Option Rat :=
  match o with
  | none => acc
  | some v => some (acc.getD 0 + v)

def sqlSumRat (l : List (Option Rat)) : Option Rat := l.foldl sumStepRat none

/-- The SQL expression `i.qty * i.weight_kg` (NULL-propagating, the INTEGER
`qty` promoted to REAL). -/
def weightTerm (i : ItemRow) : Option Rat :=
  match i.qty, i.weight_kg with
  | some qv, some wv => some ((qv : Rat) * wv)
  | _, _ => none

/-- The query-string filters of `GET /api/summary`, each already defaulted to
`""` when absent (`request.args.get(...) or ""`). -/
structure SummaryFilters where
  dateFrom : String
  dateTo : String
  shipper : String
  dest : String

/-- `h.date >= ?` on the nullable date column: NULL never satisfies it. -/
def optGeStr (o : Option String) (v : String) : Bool :=
  match o with
  | none => false
  | some s => decide (strLe v s)

/-- `h.date <= ?` on the nullable date column. -/
def optLeStr (o : Option String) (v : String) : Bool :=
  match o with
  | none => false
  | some s => decide (strLe s v)

/-- The conjunctive WHERE clause of `api_summary`: each of the four optional
filters is added only when non-blank after strip; the shipper/dest filters
are `LIKE '%..%'` substring conditions. -/
def matchesFilters (f : SummaryFilters) (h : HeaderRow) : Bool :=
  (stripStr f.dateFrom == "" || optGeStr h.date (stripStr f.dateFrom)) &&
  (stripStr f.dateTo == "" || optLeStr h.date (stripStr f.dateTo)) &&
  (stripStr f.shipper == "" ||
    optLike h.shipper ("%" ++ stripStr f.shipper ++ "%")) &&
  (stripStr f.dest == "" || optLike h.dest ("%" ++ stripStr f.dest ++ "%"))

/-- One entry of `GET /api/summary` results. -/
structure SummaryRow where
  hainyuId : String
  date : Option String
  shipper : Option String
  dest : Option String
  itemName : Option String
  itemCount : Nat
  totalQty : Int
  totalM3 : Rat
  totalWeight : Rat
  markImage : Option String
deriving DecidableEq

/-- The aggregated row of one header after the `LEFT JOIN` + `GROUP BY`
(grouping is by the primary key, so one group per header): `COUNT(i.id)`
counts the matching item rows — `i.id` is never NULL and a header without
items yields one all-NULL joined row, counted 0; the sums are
`COALESCE(SUM(...), 0)`, re-coalesced by Python's `float(... or 0)` for the
REAL ones. -/
def mkSummaryRow (db : DB) (h : HeaderRow) : SummaryRow :=
  { hainyuId := h.hainyu_id, date := h.date, shipper := h.shipper,
    dest := h.dest, itemName := h.item_name,
    itemCount := (itemsFor db h.hainyu_id).length,
    totalQty := (sqlSumInt ((itemsFor db h.hainyu_id).map ItemRow.qty)).getD 0,
    totalM3 := (sqlSumRat ((itemsFor db h.hainyu_id).map ItemRow.m3)).getD 0,
    totalWeight :=
      (sqlSumRat ((itemsFor db h.hainyu_id).map weightTerm)).getD 0,
    markImage := h.mark_image }

/-- Handler `api_summary` (`GET /api/summary`): the headers matching all
supplied filters, aggregated over their item rows,
`ORDER BY h.date DESC, h.hainyu_id ASC LIMIT 500`. -/
def api_summary (db : DB) (f : SummaryFilters) : List SummaryRow :=
  ((List.insertionSort recencyOrd
      (db.headers.filter (matchesFilters f))).take 500).map (mkSummaryRow db)

theorem foldl_sumStepInt (l : List (Option Int)) :
    ∀ acc : Option Int,
      (l.foldl sumStepInt acc).getD 0 =
        acc.getD 0 + (l.map (fun o => o.getD 0)).sum := by
  induction l with
  | nil => intro acc; simp
  | cons o t ih =>
    intro acc
    cases o with
    | none =>
      rw [List.foldl_cons, ih]
      simp [sumStepInt]
    | some v =>
      rw [List.foldl_cons, ih]
      simp only [sumStepInt, Option.getD_some, List.map_cons, List.sum_cons]
      ring

theorem sqlSumInt_getD (l : List (Option Int)) :
    (sqlSumInt l).getD 0 = (l.map (fun o => o.getD 0)).sum := by
  rw [sqlSumInt, foldl_sumStepInt]
  simp

theorem foldl_sumStepRat (l : List (Option Rat)) :
    ∀ acc : Option Rat,
      (l.foldl sumStepRat acc).getD 0 =
        acc.getD 0 + (l.map (fun o => o.getD 0)).sum := by
  induction l with
  | nil => intro acc; simp
  | cons o t ih =>
    intro acc
    cases o with
    | none =>
      rw [List.foldl_cons, ih]
      simp [sumStepRat]
    | some v =>
      rw [List.foldl_cons, ih]
      simp only [sumStepRat, Option.getD_some, List.map_cons, List.sum_cons]
      ring

theorem sqlSumRat_getD (l : List (Option Rat)) :
    (sqlSumRat l).getD 0 = (l.map (fun o => o.getD 0)).sum := by
  rw [sqlSumRat, foldl_sumStepRat]
  simp

theorem weightTerm_getD (i : ItemRow) :
    (weightTerm i).getD 0 = (i.qty.getD 0 : Rat) * i.weight_kg.getD 0 := by
  rw [weightTerm]
  rcases hq : i.qty with _ | qv <;> rcases hw : i.weight_kg with _ | wv <;>
    simp

/-- C4: every header matching all supplied (optional, conjunctive) filters
contributes its summary row (the hypothesis bounds the matching set by the
LIMIT 500): itemCount equals the number of its item rows, totalQty the sum of
qty with missing as 0, totalM3 the sum of m3 with missing as 0, totalWeight
the sum of qty × weightKg per item with missing as 0; a matching header with
zero items still appears, with all sums 0. -/
theorem C4_summary_aggregates (db : DB) (f : SummaryFilters) (h : HeaderRow)
    (hmem : h ∈ db.headers) (hmatch : matchesFilters f h = true)
    (hcount : (db.headers.filter (matchesFilters f)).length ≤ 500) :
    mkSummaryRow db h ∈ api_summary db f ∧
    (mkSummaryRow db h).itemCount = (itemsFor db h.hainyu_id).length ∧
    (mkSummaryRow db h).totalQty =
      ((itemsFor db h.hainyu_id).map (fun i => i.qty.getD 0)).sum ∧
    (mkSummaryRow db h).totalM3 =
      ((itemsFor db h.hainyu_id).map (fun i => i.m3.getD 0)).sum ∧
    (mkSummaryRow db h).totalWeight =
      ((itemsFor db h.hainyu_id).map
        (fun i => (i.qty.getD 0 : Rat) * i.weight_kg.getD 0)).sum ∧
    (itemsFor db h.hainyu_id = [] →
      (mkSummaryRow db h).itemCount = 0 ∧
      (mkSummaryRow db h).totalQty = 0 ∧
      (mkSummaryRow db h).totalM3 = 0 ∧
      (mkSummaryRow db h).totalWeight = 0) := by
  refine ⟨?_, rfl, ?_, ?_, ?_, ?_⟩
  · rw [api_summary]
    have h1 : h ∈ db.headers.filter (matchesFilters f) :=
      List.mem_filter.mpr ⟨hmem, hmatch⟩
    have h2 : h ∈ List.insertionSort recencyOrd
        (db.headers.filter (matchesFilters f)) :=
      (List.mem_insertionSort _).mpr h1
    rw [List.take_of_length_le
      (by rw [List.length_insertionSort]; exact hcount)]
    exact List.mem_map_of_mem _ h2
  · show (sqlSumInt _).getD 0 = _
    rw [sqlSumInt_getD, List.map_map]
    rfl
  · show (sqlSumRat _).getD 0 = _
    rw [sqlSumRat_getD, List.map_map]
    rfl
  · show (sqlSumRat _).getD 0 = _
    rw [sqlSumRat_getD, List.map_map]
    exact congrArg List.sum
      (List.map_congr_left fun i _ => weightTerm_getD i)
  · intro hz
    refine ⟨?_, ?_, ?_, ?_⟩ <;>
      simp [mkSummaryRow, hz, sqlSumInt, sqlSumRat]

theorem C4_summary_aggregates_witness :
    mkSummaryRow
        ⟨[⟨"H1", some "2024-01-02", some "ACME", some "Tokyo", some "Boxes",
           some "M", none⟩], [], 0⟩
        ⟨"H1", some "2024-01-02", some "ACME", some "Tokyo", some "Boxes",
         some "M", none⟩ ∈
      api_summary
        ⟨[⟨"H1", some "2024-01-02", some "ACME", some "Tokyo", some "Boxes",
           some "M", none⟩], [], 0⟩
        ⟨"", "", "", ""⟩ :=
  (C4_summary_aggregates
    ⟨[⟨"H1", some "2024-01-02", some "ACME", some "Tokyo", some "Boxes",
       some "M", none⟩], [], 0⟩
    ⟨"", "", "", ""⟩
    ⟨"H1", some "2024-01-02", some "ACME", some "Tokyo", some "Boxes",
     some "M", none⟩
    (by decide) (by decide) (by decide)).1

end EK
